import Mathlib

/-!
Verification of the parakeet-writer push-to-talk voice-capture orchestrator.

The Rust sources are shallowly embedded:
* floating-point sample arithmetic (`f32`/`f64`) is modelled exactly over `ℚ`;
* the audio capture device, the transcription engine, the Ollama cleanup
  service and the output sink commands are external collaborators and are
  modelled by oracles giving the outcome of each call;
* the async control flow of the tokio event loop is modelled by a
  deterministic step function that emits the list of observable actions each
  event handler performs, in program order.
-/

namespace ParakeetWriter

/-! ### Audio resampling (`src/audio.rs`, `fn resample`)

`resample` mirrors the Rust function line by line: the ratio `from_rate /
to_rate`, the output length `(samples.len() as f64 / ratio) as usize`
(a nonnegative-float truncation, i.e. `Nat.floor`), and per output index the
linear interpolation with its two fallback branches. -/

/-- Body of the `for i in 0..output_len` loop of `fn resample`: the sample
pushed for output index `i`. -/
def resampleAt (samples : List ℚ) ( ratio : ℚ) (i : ℕ) : ℚ :=
  let srcIdx : ℚ := (i : ℚ) * ratio
  let idx : ℕ := Nat.floor srcIdx
  let frac : ℚ := srcIdx - (idx : ℚ)
  if idx + 1 < samples.length then
    samples.getD idx 0 * (1 - frac) + samples.getD (idx + 1) 0 * frac
  else if idx < samples.length then
    samples.getD idx 0
  else 0

/-- The Rust `fn resample(samples, from_rate, to_rate)`. -/
def resample (samples : List ℚ) (fromRate toRate : ℕ) : List ℚ :=
  let ratio : ℚ := (fromRate : ℚ) / (toRate : ℚ)
  let outputLen : ℕ := Nat.floor ((samples.length : ℚ) / ratio)
  (List.range outputLen).map (resampleAt samples ratio)

/-- The resampling step of `AudioRecorder::stop`: resample only when the
input rate differs from the output rate, otherwise clone the buffer. -/
def stopSamples (samples : List ℚ) (inputRate outputRate : ℕ) : List ℚ :=
  if inputRate ≠ outputRate then resample samples inputRate outputRate
  else samples

theorem resample_length (samples : List ℚ) (fromRate toRate : ℕ) :
    (resample samples fromRate toRate).length =
      samples.length * toRate / fromRate := by
  unfold resample
  rw [List.length_map, List.length_range]
  rcases Nat.eq_zero_or_pos toRate with h2 | h2
  · subst h2
    simp
  rcases Nat.eq_zero_or_pos fromRate with h1 | h1
  · subst h1
    rw [Nat.cast_zero, zero_div, div_zero]
    simp
  have hcast : ((samples.length : ℚ)) / ((fromRate : ℚ) / (toRate : ℚ))
      = ((samples.length * toRate : ℕ) : ℚ) / ((fromRate : ℕ) : ℚ) := by
    rw [div_div_eq_mul_div]
    push_cast
    ring_nf
  rw [hcast, Nat.floor_div_eq_div]

/-- C4: for every input buffer of `N` samples and every pair of unequal rates
`R1` (input) and `R2` (output), `resample` returns exactly `⌊N * R2 / R1⌋`
output samples; in particular 48000 input samples at 48000 Hz yield 16000
output samples at 16000 Hz. -/
theorem resample_length_spec :
    (∀ (samples : List ℚ) (fromRate toRate : ℕ), fromRate ≠ toRate →
        (resample samples fromRate toRate).length =
          samples.length * toRate / fromRate)
    ∧ (List.replicate 48000 (0 : ℚ) |> fun s =>
        (resample s 48000 16000).length = 16000) := by
  constructor
  · intro samples fromRate toRate _
    exact resample_length samples fromRate toRate
  · show (resample (List.replicate 48000 (0 : ℚ)) 48000 16000).length = 16000
    rw [resample_length, List.length_replicate]

/-- Witness for C4 at concrete rates 3 ≠ 2 on a three-sample buffer. -/
theorem resample_length_spec_witness :
    (resample [(1 : ℚ), 2, 3] 3 2).length = 2 := by
  have h := resample_length_spec.1 [(1 : ℚ), 2, 3] 3 2 (by decide)
  simpa using h

theorem resample_self (samples : List ℚ) (rate : ℕ) (hr : 0 < rate) :
    resample samples rate rate = samples := by
  have hrQ : ((rate : ℚ)) ≠ 0 := by
    exact_mod_cast Nat.pos_iff_ne_zero.mp hr
  have hratio : ((rate : ℚ) / (rate : ℚ)) = 1 := div_self hrQ
  unfold resample
  simp only [hratio, div_one, Nat.floor_natCast]
  apply List.ext_getElem
  · rw [List.length_map, List.length_range]
  intro i hi hi'
  rw [List.getElem_map, List.getElem_range]
  show resampleAt samples 1 i = samples[i]
  unfold resampleAt
  simp only [mul_one, Nat.floor_natCast, sub_self, sub_zero, mul_zero, add_zero]
  rw [List.getD_eq_getElem samples 0 hi']
  by_cases hnext : i + 1 < samples.length
  · rw [if_pos hnext]
  · rw [if_neg hnext, if_pos hi']

/-- C6: resampling with the input rate equal to the output rate returns the
input sequence unchanged, both as a property of `resample` itself and via the
`stop()` bypass that skips resampling when the rates are equal. -/
theorem resample_identity (samples : List ℚ) (rate : ℕ) (hr : 0 < rate) :
    resample samples rate rate = samples
    ∧ stopSamples samples rate rate = samples := by
  refine ⟨resample_self samples rate hr, ?_⟩
  unfold stopSamples
  simp

/-- Witness for C6 on a concrete buffer at 48000 Hz. -/
theorem resample_identity_witness :
    resample [(1 : ℚ), -1, 5] 48000 48000 = [(1 : ℚ), -1, 5]
    ∧ stopSamples [(1 : ℚ), -1, 5] 48000 48000 = [(1 : ℚ), -1, 5] :=
  resample_identity [(1 : ℚ), -1, 5] 48000 (by decide)

theorem resample_getD (samples : List ℚ) (fromRate toRate : ℕ) (i : ℕ)
    (hi : i < (resample samples fromRate toRate).length) :
    (resample samples fromRate toRate).getD i 0 =
      resampleAt samples ((fromRate : ℚ) / (toRate : ℚ)) i := by
  unfold resample at hi ⊢
  rw [List.getD_eq_getElem _ _ hi, List.getElem_map, List.getElem_range]

/-- C5: for every non-empty input buffer, an output index whose source
position has integer part equal to the last valid input index (so its
interpolation window extends past the input end) yields exactly the final
input sample, and the per-index sample value at an integer part fully past
the input's end is silence (`0`). -/
theorem resample_boundary :
    (∀ (samples : List ℚ) (fromRate toRate : ℕ) (hne : samples ≠ [])
        (i : ℕ) (hi : i < (resample samples fromRate toRate).length),
        Nat.floor ((i : ℚ) * ((fromRate : ℚ) / (toRate : ℚ))) + 1
            = samples.length →
        (resample samples fromRate toRate).getD i 0 = samples.getLast hne)
    ∧ (∀ (samples : List ℚ) (r : ℚ) (j : ℕ),
        samples.length ≤ Nat.floor ((j : ℚ) * r) →
        resampleAt samples r j = 0) := by
  constructor
  · intro samples fromRate toRate hne i hi hlast
    rw [resample_getD samples fromRate toRate i hi]
    unfold resampleAt
    simp only
    rw [if_neg (by omega), if_pos (by omega)]
    rw [List.getLast_eq_getElem, List.getD_eq_getElem _ _ (by omega)]
    congr 1
    omega
  · intro samples r j hj
    unfold resampleAt
    simp only
    rw [if_neg (by omega), if_neg (by omega)]

/-- Witness for C5: upsampling `[3, 5]` from rate 1 to rate 2, output index 2
lands on the last input index and produces the final sample `5`; and the
silence branch of the loop body yields `0` for a source position past the
end. -/
theorem resample_boundary_witness :
    (resample [(3 : ℚ), 5] 1 2).getD 2 0 = 5
    ∧ resampleAt [(3 : ℚ), 5] 2 1 = 0 := by
  constructor
  · have h := resample_boundary.1 [(3 : ℚ), 5] 1 2 (by decide) 2
      (by norm_num [resample]) (by norm_num)
    simpa using h
  · exact resample_boundary.2 [(3 : ℚ), 5] 2 1 (by norm_num)

theorem resampleAt_cases (samples : List ℚ) (r : ℚ) (i : ℕ) (hr : 0 ≤ r) :
    resampleAt samples r i = 0
    ∨ (∃ j, ∃ hj : j < samples.length, resampleAt samples r i = samples[j])
    ∨ (∃ j f, j + 1 < samples.length ∧ 0 ≤ f ∧ f < 1 ∧
        resampleAt samples r i
          = samples.getD j 0 * (1 - f) + samples.getD (j + 1) 0 * f) := by
  unfold resampleAt
  simp only
  by_cases h1 : Nat.floor ((i : ℚ) * r) + 1 < samples.length
  · right; right
    refine ⟨Nat.floor ((i : ℚ) * r), (i : ℚ) * r - (Nat.floor ((i : ℚ) * r) : ℚ),
      h1, ?_, ?_, ?_⟩
    · have hsrc : (0 : ℚ) ≤ (i : ℚ) * r := mul_nonneg (Nat.cast_nonneg i) hr
      have := Nat.floor_le hsrc
      linarith
    · have := Nat.lt_floor_add_one ((i : ℚ) * r)
      push_cast at this
      linarith
    · rw [if_pos h1]
  · by_cases h2 : Nat.floor ((i : ℚ) * r) < samples.length
    · right; left
      refine ⟨Nat.floor ((i : ℚ) * r), h2, ?_⟩
      rw [if_neg h1, if_pos h2, List.getD_eq_getElem _ _ h2]
    · left
      rw [if_neg h1, if_neg h2]

/-- C10: for every input buffer all of whose samples lie in `[-1, 1]` and
every rate pair, every sample produced by `resample` also lies in `[-1, 1]`;
moreover each produced sample is either `0`, a copy of an input sample, or a
convex combination (weights `1 - f` and `f` with `0 ≤ f < 1`) of two adjacent
input samples. -/
theorem resample_preserves_range :
    (∀ (samples : List ℚ) (fromRate toRate : ℕ),
        (∀ x ∈ samples, -1 ≤ x ∧ x ≤ 1) →
        ∀ y ∈ resample samples fromRate toRate, -1 ≤ y ∧ y ≤ 1)
    ∧ (∀ (samples : List ℚ) (fromRate toRate : ℕ) (y : ℚ),
        y ∈ resample samples fromRate toRate →
        y = 0
        ∨ (∃ j, ∃ hj : j < samples.length, y = samples[j])
        ∨ (∃ j f, j + 1 < samples.length ∧ 0 ≤ f ∧ f < 1 ∧
            y = samples.getD j 0 * (1 - f) + samples.getD (j + 1) 0 * f)) := by
  have hmem : ∀ (samples : List ℚ) (fromRate toRate : ℕ) (y : ℚ),
      y ∈ resample samples fromRate toRate →
      y = 0
      ∨ (∃ j, ∃ hj : j < samples.length, y = samples[j])
      ∨ (∃ j f, j + 1 < samples.length ∧ 0 ≤ f ∧ f < 1 ∧
          y = samples.getD j 0 * (1 - f) + samples.getD (j + 1) 0 * f) := by
    intro samples fromRate toRate y hy
    unfold resample at hy
    simp only [List.mem_map, List.mem_range] at hy
    obtain ⟨i, _, hiy⟩ := hy
    have hr : (0 : ℚ) ≤ (fromRate : ℚ) / (toRate : ℚ) :=
      div_nonneg (Nat.cast_nonneg _) (Nat.cast_nonneg _)
    rcases resampleAt_cases samples ((fromRate : ℚ) / (toRate : ℚ)) i hr with
      h | ⟨j, hj, h⟩ | ⟨j, f, hjf, hf0, hf1, h⟩
    · exact Or.inl (hiy ▸ h)
    · exact Or.inr (Or.inl ⟨j, hj, hiy ▸ h⟩)
    · exact Or.inr (Or.inr ⟨j, f, hjf, hf0, hf1, hiy ▸ h⟩)
  refine ⟨?_, hmem⟩
  intro samples fromRate toRate hbound y hy
  rcases hmem samples fromRate toRate y hy with
    h | ⟨j, hj, h⟩ | ⟨j, f, hjf, hf0, hf1, h⟩
  · subst h
    norm_num
  · subst h
    exact hbound _ (List.getElem_mem hj)
  · have hj1 : j < samples.length := by omega
    have hj2 : j + 1 < samples.length := hjf
    rw [List.getD_eq_getElem _ _ hj1, List.getD_eq_getElem _ _ hj2] at h
    obtain ⟨ha1, ha2⟩ := hbound _ (List.getElem_mem hj1)
    obtain ⟨hb1, hb2⟩ := hbound _ (List.getElem_mem hj2)
    subst h
    constructor
    · nlinarith
    · nlinarith

/-- Witness for C10: the first output sample of resampling `[1, -1]` from
rate 1 to rate 2 lies in `[-1, 1]`. -/
theorem resample_preserves_range_witness :
    -1 ≤ (resample [(1 : ℚ), -1] 1 2).getD 0 0
    ∧ (resample [(1 : ℚ), -1] 1 2).getD 0 0 ≤ 1 := by
  have hlen : 0 < (resample [(1 : ℚ), -1] 1 2).length := by
    rw [resample_length]
    norm_num
  have hmem : (resample [(1 : ℚ), -1] 1 2).getD 0 0 ∈ resample [(1 : ℚ), -1] 1 2 := by
    rw [List.getD_eq_getElem _ _ hlen]
    exact List.getElem_mem hlen
  exact resample_preserves_range.1 [(1 : ℚ), -1] 1 2 (by norm_num) _ hmem

/-! ### Capture callback (`src/audio.rs`, `AudioRecorder::write_samples`)

`chunksOf` mirrors Rust's slice `chunks(n)`: frames of `n` samples, the last
chunk possibly shorter.  Rust's `chunks` panics on `n = 0`; here that case
returns `[]` and is never used (the multi-channel branch has `channels > 1`). -/

def chunksOf (c : ℕ) (data : List ℚ) : List (List ℚ) :=
  if h : data = [] ∨ c = 0 then []
  else data.take c :: chunksOf c (data.drop c)
termination_by data.length
decreasing_by
  push_neg at h
  rw [List.length_drop]
  exact Nat.sub_lt (List.length_pos.mpr h.1) (Nat.pos_of_ne_zero h.2)

/-- The Rust `AudioRecorder::write_samples`: the capture callback appends the
delivered chunk to the shared sample buffer, downmixing each frame of
`channels` interleaved samples to their average when `channels ≠ 1`. -/
def write_samples (samples data : List ℚ) (channels : ℕ) : List ℚ :=
  if channels = 1 then samples ++ data
  else samples ++ (chunksOf channels data).map (fun frame => frame.sum / (channels : ℚ))

theorem chunksOf_getElem? (c : ℕ) (hc : 0 < c) :
    ∀ (k : ℕ) (data : List ℚ), k * c < data.length →
      (chunksOf c data)[k]? = some ((data.drop (k * c)).take c) := by
  intro k
  induction k with
  | zero =>
    intro data hlen
    have hne : ¬(data = [] ∨ c = 0) := by
      push_neg
      refine ⟨?_, Nat.pos_iff_ne_zero.mp hc⟩
      intro hdata
      rw [hdata] at hlen
      simp at hlen
    rw [chunksOf, dif_neg hne]
    simp
  | succ k ih =>
    intro data hlen
    have hkc : (k + 1) * c = k * c + c := by ring
    have hne : ¬(data = [] ∨ c = 0) := by
      push_neg
      refine ⟨?_, Nat.pos_iff_ne_zero.mp hc⟩
      intro hdata
      rw [hdata] at hlen
      simp at hlen
    rw [chunksOf, dif_neg hne, List.getElem?_cons_succ]
    have hrec : k * c < (data.drop c).length := by
      rw [List.length_drop]
      omega
    rw [ih (data.drop c) hrec, List.drop_drop]
    rw [show c + k * c = (k + 1) * c from by ring]

/-- C7: for every delivered chunk with channel count `c > 1`, the capture
path appends one sample per frame of `c` interleaved samples, equal to the
arithmetic mean of that frame's samples; the 2-channel buffer
`[1, 3, 0, 0]` downmixes to `[2, 0]`; single-channel chunks append
unchanged. -/
theorem write_samples_downmix :
    (∀ (samples data : List ℚ) (channels k : ℕ), 1 < channels →
        k * channels + channels ≤ data.length →
        (write_samples samples data channels).getD (samples.length + k) 0
          = ((data.drop (k * channels)).take channels).sum / (channels : ℚ))
    ∧ write_samples [] [(1 : ℚ), 3, 0, 0] 2 = [(2 : ℚ), 0]
    ∧ (∀ samples data : List ℚ, write_samples samples data 1 = samples ++ data) := by
  refine ⟨?_, ?_, ?_⟩
  · intro samples data channels k hc hk
    have hc1 : channels ≠ 1 := by omega
    have hc0 : 0 < channels := by omega
    unfold write_samples
    rw [if_neg hc1]
    rw [List.getD_append_right _ _ _ _ (Nat.le_add_right _ _), Nat.add_sub_cancel_left]
    have hchunk := chunksOf_getElem? channels hc0 k data (by omega)
    have hmap : ((chunksOf channels data).map
        (fun frame => frame.sum / (channels : ℚ)))[k]?
          = some (((data.drop (k * channels)).take channels).sum / (channels : ℚ)) := by
      rw [List.getElem?_map, hchunk]
      rfl
    rcases List.getElem?_eq_some_iff.mp hmap with ⟨hklt, hval⟩
    rw [List.getD_eq_getElem _ _ hklt, hval]
  · unfold write_samples
    rw [if_neg (by omega : (2 : ℕ) ≠ 1)]
    rw [chunksOf, dif_neg (by simp : ¬([(1 : ℚ), 3, 0, 0] = [] ∨ (2 : ℕ) = 0))]
    rw [chunksOf, dif_neg (by simp : ¬(([(1 : ℚ), 3, 0, 0].drop 2) = [] ∨ (2 : ℕ) = 0))]
    rw [chunksOf]
    norm_num
  · intro samples data
    unfold write_samples
    rw [if_pos rfl]

/-- Witness for C7: frame 0 of the stereo chunk `[1, 3, 0, 0]` is appended
as its mean `2`. -/
theorem write_samples_downmix_witness :
    (write_samples [] [(1 : ℚ), 3, 0, 0] 2).getD 0 0 = 2 := by
  have h := write_samples_downmix.1 [] [(1 : ℚ), 3, 0, 0] 2 0 (by omega) (by simp)
  norm_num at h
  simpa using h

/-! ### Controller, cleanup retry and output fan-out
(`src/event_loop.rs`, `src/post_process.rs`, `src/output.rs`)

The external collaborators (recorder stop, transcription engine, Ollama
cleanup service, sink commands) are modelled by oracles giving each call's
outcome.  Each event handler is a function emitting, in program order, the
list of observable actions it performs; the async `.await`s of the Rust code
all occur inline inside the corresponding handler, which is why a handler's
actions form one contiguous block of the trace. -/

/-- Rust `str::trim` on the string's character list: strip leading and
trailing whitespace. -/
def trimChars (l : List Char) : List Char :=
  ((l.dropWhile Char.isWhitespace).reverse.dropWhile Char.isWhitespace).reverse

/-- Rust `str::trim`, kernel-computable (unlike `String.trim`). -/
def trim (s : String) : String :=
  String.mk (trimChars s.data)

/-- Observable actions of the controller and its pipeline, in program order.
`drainSleep` is the fixed 250 ms trailing-audio wait of the `Released` arm;
`ppSleep` is the fixed 1-second backoff sleep before a cleanup retry;
`pipelineBegin`/`pipelineEnd` mark entry to and return from the awaited
`handle_transcription` call. -/
inductive Act where
  | startCapture
  | logStartFail
  | drainSleep
  | pipelineBegin
  | stopRecorder
  | logStopFail
  | transcribe
  | logTaskFail
  | logTranscribeFail
  | noSpeech
  | ppRequest (attempt : ℕ)
  | ppSleep
  | logCleanupFail
  | typeText (text : String)
  | copyClipboard (text : String)
  | logOutputFail
  | removeArtifact
  | pipelineEnd
deriving DecidableEq

def Act.isPipelineBegin : Act → Bool
  | .pipelineBegin => true
  | _ => false

def Act.isPipelineEnd : Act → Bool
  | .pipelineEnd => true
  | _ => false

def Act.isStartCapture : Act → Bool
  | .startCapture => true
  | _ => false

def Act.isPpRequest : Act → Bool
  | .ppRequest _ => true
  | _ => false

/-- Actions that invoke the cleanup stage or an output sink. -/
def Act.isCleanupOrOutput : Act → Bool
  | .ppRequest _ => true
  | .ppSleep => true
  | .typeText _ => true
  | .copyClipboard _ => true
  | _ => false

/-- Actions internal to one `handle_transcription` invocation: everything
except the controller-loop actions and the pipeline span markers. -/
def Act.isInnerAct : Act → Bool
  | .startCapture => false
  | .logStartFail => false
  | .drainSleep => false
  | .pipelineBegin => false
  | .pipelineEnd => false
  | _ => true

/-- The `--output-mode` values of `src/output.rs`. -/
inductive OutputMode where
  | typing
  | clipboard
  | both
deriving DecidableEq

/-- The Rust `output_text`: which sink commands run and which result the
caller sees, given the outcome of each sink command.  In `Both` mode
`tokio::join!` runs both sinks to completion and `type_result?` is checked
before `clip_result?`. -/
def output_text (text : String) (mode : OutputMode)
    (typeRes clipRes : Except String Unit) : List Act × Except String Unit :=
  match mode with
  | .typing => ([Act.typeText text], typeRes)
  | .clipboard => ([Act.copyClipboard text], clipRes)
  | .both =>
    ([Act.typeText text, Act.copyClipboard text],
      match typeRes with
      | .error e => .error e
      | .ok _ => clipRes)

/-- The `for attempt in 0..3` loop of `PostProcessor::process`, with the
remaining iteration count as fuel (`fuel = 3 - attempt`).  `responses` is the
oracle for the Ollama chat call of each attempt.  A `none` result models the
`last_error.unwrap()` panic, unreachable from `process`. -/
def ppGo (responses : ℕ → Except String String) :
    ℕ → ℕ → Option String → List Act × Option (Except String String)
  | 0, _, lastErr =>
    ([], match lastErr with
         | some e => some (Except.error e)
         | none => none)
  | fuel + 1, attempt, _ =>
    let pre : List Act := if 0 < attempt then [Act.ppSleep] else []
    match responses attempt with
    | .ok resp => (pre ++ [Act.ppRequest attempt], some (Except.ok (trim resp)))
    | .error e =>
      let rest := ppGo responses fuel (attempt + 1) (some e)
      (pre ++ [Act.ppRequest attempt] ++ rest.1, rest.2)

/-- The Rust `PostProcessor::process`. -/
def process (responses : ℕ → Except String String) :
    List Act × Option (Except String String) :=
  ppGo responses 3 0 none

/-- Outcomes of one session's external calls: `recorder.stop()`, the
transcription task (outer layer: `spawn_blocking` join, inner layer: the
engine call), the cleanup responses per attempt, and the two sink commands. -/
structure SessionOracle where
  stopResult : Except String Unit
  transcribeResult : Except String (Except String String)
  cleanup : ℕ → Except String String
  typeRes : Except String Unit
  clipRes : Except String Unit

def outputFailLog : Except String Unit → List Act
  | .error _ => [Act.logOutputFail]
  | .ok _ => []

/-- The Rust `handle_transcription`: stop the recorder, run the blocking
transcription task, then — only for a non-empty trimmed transcript —
optionally clean it up (falling back to the uncleaned text when all cleanup
attempts fail) and send it to the output sinks; the artifact file is removed
on every exit path of the transcription match.  The `(acts, none)` branch of
the cleanup match models the unreachable `unwrap` panic of `process`. -/
def handle_transcription (o : SessionOracle) (pp : Bool) (mode : OutputMode) :
    List Act :=
  match o.stopResult with
  | .error _ => [Act.stopRecorder, Act.logStopFail]
  | .ok _ =>
    let inner : List Act :=
      match o.transcribeResult with
      | .error _ => [Act.logTaskFail]
      | .ok (.error _) => [Act.logTranscribeFail]
      | .ok (.ok raw) =>
        let text := trim raw
        if text = "" then [Act.noSpeech]
        else
          let cleaned : List Act × String :=
            if pp then
              match process o.cleanup with
              | (acts, some (Except.ok done)) => (acts, done)
              | (acts, some (Except.error _)) => (acts ++ [Act.logCleanupFail], text)
              | (acts, none) => (acts, text)
            else ([], text)
          let out := output_text cleaned.2 mode o.typeRes o.clipRes
          cleaned.1 ++ out.1 ++ outputFailLog out.2
    Act.stopRecorder :: Act.transcribe :: (inner ++ [Act.removeArtifact])

inductive HotkeyEvent where
  | pressed
  | released
deriving DecidableEq

/-- Oracles for a whole run: `startOk n` is the outcome of the `n`-th
`recorder.start()` call, `session n` the collaborator outcomes of the `n`-th
completed recording session. -/
structure Oracle where
  startOk : ℕ → Bool
  session : ℕ → SessionOracle

/-- Controller-loop state: the `is_recording` flag plus the two oracle
indices (how many `start()` calls and how many sessions happened so far). -/
structure LoopState where
  isRecording : Bool
  starts : ℕ
  sessions : ℕ
deriving DecidableEq

/-- One iteration of the `tokio::select!` loop of `run_event_loop` on a
received hotkey event.  The `Released` arm performs the 250 ms drain sleep
and then awaits `handle_transcription` inline, so the handler's whole action
block is emitted within this step. -/
def eventStep (o : Oracle) (pp : Bool) (mode : OutputMode) (st : LoopState) :
    HotkeyEvent → LoopState × List Act
  | .pressed =>
    if st.isRecording then (st, [])
    else if o.startOk st.starts then
      (⟨true, st.starts + 1, st.sessions⟩, [Act.startCapture])
    else
      (⟨false, st.starts + 1, st.sessions⟩, [Act.startCapture, Act.logStartFail])
  | .released =>
    if st.isRecording then
      (⟨false, st.starts, st.sessions + 1⟩,
        Act.drainSleep :: Act.pipelineBegin ::
          (handle_transcription (o.session st.sessions) pp mode ++ [Act.pipelineEnd]))
    else (st, [])

/-- The Rust `run_event_loop`, as the action trace of processing a list of
received hotkey events from a given state. -/
def run_event_loop (o : Oracle) (pp : Bool) (mode : OutputMode) :
    LoopState → List HotkeyEvent → List Act
  | _, [] => []
  | st, e :: evs =>
    (eventStep o pp mode st e).2
      ++ run_event_loop o pp mode (eventStep o pp mode st e).1 evs

/-- Action trace of a run from the initial state (`is_recording = false`). -/
def controllerTrace (o : Oracle) (pp : Bool) (mode : OutputMode)
    (evs : List HotkeyEvent) : List Act :=
  run_event_loop o pp mode ⟨false, 0, 0⟩ evs

/-- C9: in `Both` output mode, `output_text` attempts both the typing sink
and the clipboard sink whatever their outcomes; when the typing sink fails
while the clipboard sink succeeds, the clipboard command has still run and
the error returned to the caller is the typing failure. -/
theorem output_fanout_both :
    ∀ (text : String) (typeRes clipRes : Except String Unit),
      (output_text text OutputMode.both typeRes clipRes).1
          = [Act.typeText text, Act.copyClipboard text]
      ∧ (∀ e, typeRes = Except.error e → clipRes = Except.ok () →
          output_text text OutputMode.both typeRes clipRes
            = ([Act.typeText text, Act.copyClipboard text], Except.error e)) := by
  intro text typeRes clipRes
  constructor
  · rfl
  · intro e he _
    subst he
    rfl

/-- Witness for C9: typing fails with "typefail", clipboard succeeds; both
sinks ran and the surfaced error is the typing failure. -/
theorem output_fanout_both_witness :
    output_text "x" OutputMode.both (Except.error "typefail") (Except.ok ())
      = ([Act.typeText "x", Act.copyClipboard "x"], Except.error "typefail") :=
  (output_fanout_both "x" (Except.error "typefail") (Except.ok ())).2
    "typefail" rfl rfl

/-- C2: `PostProcessor::process` makes at most 3 attempts; attempt 1 is
immediate and each later attempt is preceded by exactly one fixed backoff
sleep; it stops at the first success (returning the trimmed response); when
all 3 attempts fail it returns the last observed error; and the caller then
emits the original uncleaned transcript unchanged to the output stage rather
than aborting the session. -/
theorem cleanup_retry_policy :
    (∀ responses : ℕ → Except String String,
        (process responses).1.countP Act.isPpRequest ≤ 3)
    ∧ (∀ responses r, responses 0 = Except.ok r →
        process responses = ([Act.ppRequest 0], some (Except.ok (trim r))))
    ∧ (∀ responses e0 r, responses 0 = Except.error e0 →
        responses 1 = Except.ok r →
        process responses
          = ([Act.ppRequest 0, Act.ppSleep, Act.ppRequest 1],
              some (Except.ok (trim r))))
    ∧ (∀ responses e0 e1 r, responses 0 = Except.error e0 →
        responses 1 = Except.error e1 → responses 2 = Except.ok r →
        process responses
          = ([Act.ppRequest 0, Act.ppSleep, Act.ppRequest 1, Act.ppSleep,
              Act.ppRequest 2], some (Except.ok (trim r))))
    ∧ (∀ responses e0 e1 e2, responses 0 = Except.error e0 →
        responses 1 = Except.error e1 → responses 2 = Except.error e2 →
        process responses
          = ([Act.ppRequest 0, Act.ppSleep, Act.ppRequest 1, Act.ppSleep,
              Act.ppRequest 2], some (Except.error e2)))
    ∧ (∀ (o : SessionOracle) (mode : OutputMode) (raw e0 e1 e2 : String),
        o.stopResult = Except.ok () →
        o.transcribeResult = Except.ok (Except.ok raw) →
        trim raw ≠ "" →
        o.cleanup 0 = Except.error e0 → o.cleanup 1 = Except.error e1 →
        o.cleanup 2 = Except.error e2 →
        handle_transcription o true mode
          = [Act.stopRecorder, Act.transcribe, Act.ppRequest 0, Act.ppSleep,
             Act.ppRequest 1, Act.ppSleep, Act.ppRequest 2, Act.logCleanupFail]
            ++ (output_text (trim raw) mode o.typeRes o.clipRes).1
            ++ outputFailLog (output_text (trim raw) mode o.typeRes o.clipRes).2
            ++ [Act.removeArtifact]) := by
  have hchar : ∀ responses : ℕ → Except String String,
      (∀ r, responses 0 = Except.ok r →
        process responses = ([Act.ppRequest 0], some (Except.ok (trim r))))
      ∧ (∀ e0 r, responses 0 = Except.error e0 → responses 1 = Except.ok r →
        process responses
          = ([Act.ppRequest 0, Act.ppSleep, Act.ppRequest 1],
              some (Except.ok (trim r))))
      ∧ (∀ e0 e1 r, responses 0 = Except.error e0 →
        responses 1 = Except.error e1 → responses 2 = Except.ok r →
        process responses
          = ([Act.ppRequest 0, Act.ppSleep, Act.ppRequest 1, Act.ppSleep,
              Act.ppRequest 2], some (Except.ok (trim r))))
      ∧ (∀ e0 e1 e2, responses 0 = Except.error e0 →
        responses 1 = Except.error e1 → responses 2 = Except.error e2 →
        process responses
          = ([Act.ppRequest 0, Act.ppSleep, Act.ppRequest 1, Act.ppSleep,
              Act.ppRequest 2], some (Except.error e2))) := by
    intro responses
    refine ⟨?_, ?_, ?_, ?_⟩
    · intro r h0
      simp [process, ppGo, h0]
    · intro e0 r h0 h1
      simp [process, ppGo, h0, h1]
    · intro e0 e1 r h0 h1 h2
      simp [process, ppGo, h0, h1, h2]
    · intro e0 e1 e2 h0 h1 h2
      simp [process, ppGo, h0, h1, h2]
  refine ⟨?_, fun responses => (hchar responses).1,
    fun responses => (hchar responses).2.1,
    fun responses => (hchar responses).2.2.1,
    fun responses => (hchar responses).2.2.2, ?_⟩
  · intro responses
    cases h0 : responses 0 with
    | ok r =>
      rw [(hchar responses).1 r h0]
      simp [List.countP_cons, Act.isPpRequest]
    | error e0 =>
      cases h1 : responses 1 with
      | ok r =>
        rw [(hchar responses).2.1 e0 r h0 h1]
        simp [List.countP_cons, Act.isPpRequest]
      | error e1 =>
        cases h2 : responses 2 with
        | ok r =>
          rw [(hchar responses).2.2.1 e0 e1 r h0 h1 h2]
          simp [List.countP_cons, Act.isPpRequest]
        | error e2 =>
          rw [(hchar responses).2.2.2 e0 e1 e2 h0 h1 h2]
          simp [List.countP_cons, Act.isPpRequest]
  · intro o mode raw e0 e1 e2 hstop htr hne h0 h1 h2
    unfold handle_transcription
    rw [hstop, htr]
    have hp := (hchar o.cleanup).2.2.2 e0 e1 e2 h0 h1 h2
    simp [hp, hne, List.append_assoc]

/-- Witness for C2: with every attempt failing with "down", `process` issues
exactly the attempt/backoff trace and returns the last error, and the caller
outputs the uncleaned transcript "hi". -/
theorem cleanup_retry_policy_witness :
    process (fun _ => Except.error "down")
        = ([Act.ppRequest 0, Act.ppSleep, Act.ppRequest 1, Act.ppSleep,
            Act.ppRequest 2], some (Except.error "down"))
    ∧ handle_transcription
        ⟨Except.ok (), Except.ok (Except.ok "hi"), fun _ => Except.error "down",
          Except.ok (), Except.ok ()⟩ true OutputMode.typing
        = [Act.stopRecorder, Act.transcribe, Act.ppRequest 0, Act.ppSleep,
           Act.ppRequest 1, Act.ppSleep, Act.ppRequest 2, Act.logCleanupFail,
           Act.typeText "hi", Act.removeArtifact] := by
  constructor
  · exact cleanup_retry_policy.2.2.2.2.1 (fun _ => Except.error "down")
      "down" "down" "down" rfl rfl rfl
  · have h := cleanup_retry_policy.2.2.2.2.2
      ⟨Except.ok (), Except.ok (Except.ok "hi"), fun _ => Except.error "down",
        Except.ok (), Except.ok ()⟩ OutputMode.typing "hi" "down" "down" "down"
      rfl rfl (by decide) rfl rfl rfl
    simpa using h

/-- C3: a transcription result whose text trims to the empty string is
reported as the distinct no-speech outcome and invokes neither the cleanup
stage nor any output sink; conversely a cleanup or sink action occurs only
when the trimmed transcript is non-empty. -/
theorem no_speech_short_circuit :
    (∀ (o : SessionOracle) (pp : Bool) (mode : OutputMode) (raw : String),
        o.stopResult = Except.ok () →
        o.transcribeResult = Except.ok (Except.ok raw) →
        trim raw = "" →
        handle_transcription o pp mode
          = [Act.stopRecorder, Act.transcribe, Act.noSpeech, Act.removeArtifact])
    ∧ (∀ (o : SessionOracle) (pp : Bool) (mode : OutputMode) (x : Act),
        x ∈ handle_transcription o pp mode → x.isCleanupOrOutput = true →
        ∃ raw, o.transcribeResult = Except.ok (Except.ok raw) ∧ trim raw ≠ "") := by
  constructor
  · intro o pp mode raw hstop htr hempty
    unfold handle_transcription
    rw [hstop, htr]
    simp [hempty]
  · intro o pp mode x hx hcl
    unfold handle_transcription at hx
    cases hstop : o.stopResult with
    | error e =>
      rw [hstop] at hx
      have hor : x = Act.stopRecorder ∨ x = Act.logStopFail := by
        simpa using hx
      rcases hor with h | h <;> subst h <;> simp [Act.isCleanupOrOutput] at hcl
    | ok u =>
      rw [hstop] at hx
      cases htr : o.transcribeResult with
      | error e =>
        rw [htr] at hx
        have hor : x = Act.stopRecorder ∨ x = Act.transcribe
            ∨ x = Act.logTaskFail ∨ x = Act.removeArtifact := by
          simpa using hx
        rcases hor with h | h | h | h <;> subst h <;>
          simp [Act.isCleanupOrOutput] at hcl
      | ok inner =>
        cases inner with
        | error e =>
          rw [htr] at hx
          have hor : x = Act.stopRecorder ∨ x = Act.transcribe
              ∨ x = Act.logTranscribeFail ∨ x = Act.removeArtifact := by
            simpa using hx
          rcases hor with h | h | h | h <;> subst h <;>
            simp [Act.isCleanupOrOutput] at hcl
        | ok raw =>
          rw [htr] at hx
          by_cases hempty : trim raw = ""
          · have hor : x = Act.stopRecorder ∨ x = Act.transcribe
                ∨ x = Act.noSpeech ∨ x = Act.removeArtifact := by
              simpa [hempty] using hx
            rcases hor with h | h | h | h <;> subst h <;>
              simp [Act.isCleanupOrOutput] at hcl
          · exact ⟨raw, rfl, hempty⟩

/-- Witness for C3: a whitespace-only transcript " " short-circuits to the
no-speech report without cleanup or output. -/
theorem no_speech_short_circuit_witness :
    handle_transcription
        ⟨Except.ok (), Except.ok (Except.ok " "), fun _ => Except.ok "x",
          Except.ok (), Except.ok ()⟩ true OutputMode.both
      = [Act.stopRecorder, Act.transcribe, Act.noSpeech, Act.removeArtifact] :=
  no_speech_short_circuit.1
    ⟨Except.ok (), Except.ok (Except.ok " "), fun _ => Except.ok "x",
      Except.ok (), Except.ok ()⟩ true OutputMode.both " " rfl rfl rfl

/-- C8: a `Pressed` hotkey event received while a recording is already in
progress is a no-op (no new capture starts, recorder and controller state
unchanged), and a `Released` event received while not recording is likewise
a no-op. -/
theorem session_guard :
    ∀ (o : Oracle) (pp : Bool) (mode : OutputMode) (st : LoopState),
      (st.isRecording = true →
        eventStep o pp mode st HotkeyEvent.pressed = (st, []))
      ∧ (st.isRecording = false →
        eventStep o pp mode st HotkeyEvent.released = (st, [])) := by
  intro o pp mode st
  constructor
  · intro h
    simp [eventStep, h]
  · intro h
    simp [eventStep, h]

/-- Witness for C8 at a concrete recording state and a concrete idle state. -/
theorem session_guard_witness :
    eventStep ⟨fun _ => true, fun _ =>
        ⟨Except.ok (), Except.ok (Except.ok "hi"), fun _ => Except.ok "hi",
          Except.ok (), Except.ok ()⟩⟩ false OutputMode.both
        ⟨true, 1, 0⟩ HotkeyEvent.pressed = (⟨true, 1, 0⟩, [])
    ∧ eventStep ⟨fun _ => true, fun _ =>
        ⟨Except.ok (), Except.ok (Except.ok "hi"), fun _ => Except.ok "hi",
          Except.ok (), Except.ok ()⟩⟩ false OutputMode.both
        ⟨false, 0, 0⟩ HotkeyEvent.released = (⟨false, 0, 0⟩, []) :=
  ⟨(session_guard _ false OutputMode.both ⟨true, 1, 0⟩).1 rfl,
    (session_guard _ false OutputMode.both ⟨false, 0, 0⟩).2 rfl⟩

theorem Act.inner_not_special (x : Act) (h : x.isInnerAct = true) :
    x.isPipelineBegin = false ∧ x.isPipelineEnd = false
      ∧ x.isStartCapture = false := by
  cases x <;> simp_all [Act.isInnerAct, Act.isPipelineBegin, Act.isPipelineEnd,
    Act.isStartCapture]

theorem ppGo_inner (responses : ℕ → Except String String) :
    ∀ (fuel attempt : ℕ) (lastErr : Option String) (x : Act),
      x ∈ (ppGo responses fuel attempt lastErr).1 → x.isInnerAct = true := by
  intro fuel
  induction fuel with
  | zero =>
    intro attempt lastErr x hx
    simp [ppGo] at hx
  | succ n ih =>
    intro attempt lastErr x hx
    cases hr : responses attempt with
    | ok r =>
      by_cases hatt : 0 < attempt
      · simp [ppGo, hr, hatt] at hx
        rcases hx with h | h <;> subst h <;> rfl
      · simp [ppGo, hr, hatt] at hx
        subst hx
        rfl
    | error e =>
      by_cases hatt : 0 < attempt
      · simp [ppGo, hr, hatt] at hx
        rcases hx with h | h | h
        · subst h; rfl
        · subst h; rfl
        · exact ih (attempt + 1) (some e) x h
      · simp [ppGo, hr, hatt] at hx
        rcases hx with h | h
        · subst h; rfl
        · exact ih (attempt + 1) (some e) x h

theorem output_text_inner (text : String) (mode : OutputMode)
    (typeRes clipRes : Except String Unit) :
    ∀ x ∈ (output_text text mode typeRes clipRes).1, x.isInnerAct = true := by
  intro x hx
  cases mode with
  | typing =>
    simp [output_text] at hx
    subst hx; rfl
  | clipboard =>
    simp [output_text] at hx
    subst hx; rfl
  | both =>
    simp [output_text] at hx
    rcases hx with h | h <;> subst h <;> rfl

theorem outputFailLog_inner (r : Except String Unit) :
    ∀ x ∈ outputFailLog r, x.isInnerAct = true := by
  intro x hx
  cases r with
  | error e =>
    simp [outputFailLog] at hx
    subst hx; rfl
  | ok u =>
    simp [outputFailLog] at hx

theorem handle_transcription_inner (o : SessionOracle) (pp : Bool)
    (mode : OutputMode) :
    ∀ x ∈ handle_transcription o pp mode, x.isInnerAct = true := by
  intro x hx
  unfold handle_transcription at hx
  cases hstop : o.stopResult with
  | error e =>
    rw [hstop] at hx
    have hor : x = Act.stopRecorder ∨ x = Act.logStopFail := by simpa using hx
    rcases hor with h | h <;> subst h <;> rfl
  | ok u =>
    rw [hstop] at hx
    cases htr : o.transcribeResult with
    | error e =>
      rw [htr] at hx
      have hor : x = Act.stopRecorder ∨ x = Act.transcribe
          ∨ x = Act.logTaskFail ∨ x = Act.removeArtifact := by simpa using hx
      rcases hor with h | h | h | h <;> subst h <;> rfl
    | ok inner =>
      cases inner with
      | error e =>
        rw [htr] at hx
        have hor : x = Act.stopRecorder ∨ x = Act.transcribe
            ∨ x = Act.logTranscribeFail ∨ x = Act.removeArtifact := by
          simpa using hx
        rcases hor with h | h | h | h <;> subst h <;> rfl
      | ok raw =>
        rw [htr] at hx
        by_cases hempty : trim raw = ""
        · have hor : x = Act.stopRecorder ∨ x = Act.transcribe
              ∨ x = Act.noSpeech ∨ x = Act.removeArtifact := by
            simpa [hempty] using hx
          rcases hor with h | h | h | h <;> subst h <;> rfl
        · cases hpp : pp with
          | false =>
            have hor : x = Act.stopRecorder ∨ x = Act.transcribe
                ∨ x ∈ (output_text (trim raw) mode o.typeRes o.clipRes).1
                ∨ x ∈ outputFailLog
                    (output_text (trim raw) mode o.typeRes o.clipRes).2
                ∨ x = Act.removeArtifact := by
              simpa [hempty, hpp] using hx
            rcases hor with h | h | h | h | h
            · subst h; rfl
            · subst h; rfl
            · exact output_text_inner _ _ _ _ x h
            · exact outputFailLog_inner _ x h
            · subst h; rfl
          | true =>
            rcases hproc : process o.cleanup with ⟨acts, res⟩
            have hacts : acts = (ppGo o.cleanup 3 0 none).1 := by
              have : acts = (process o.cleanup).1 := by rw [hproc]
              rw [this]; rfl
            have hmemActs : ∀ y ∈ acts, Act.isInnerAct y = true := by
              intro y hy
              rw [hacts] at hy
              exact ppGo_inner o.cleanup 3 0 none y hy
            cases res with
            | none =>
              have hor : x = Act.stopRecorder ∨ x = Act.transcribe
                  ∨ x ∈ acts
                  ∨ x ∈ (output_text (trim raw) mode o.typeRes o.clipRes).1
                  ∨ x ∈ outputFailLog
                      (output_text (trim raw) mode o.typeRes o.clipRes).2
                  ∨ x = Act.removeArtifact := by
                simpa [hempty, hpp, hproc] using hx
              rcases hor with h | h | h | h | h | h
              · subst h; rfl
              · subst h; rfl
              · exact hmemActs x h
              · exact output_text_inner _ _ _ _ x h
              · exact outputFailLog_inner _ x h
              · subst h; rfl
            | some cres =>
              cases cres with
              | ok done =>
                have hor : x = Act.stopRecorder ∨ x = Act.transcribe
                    ∨ x ∈ acts
                    ∨ x ∈ (output_text done mode o.typeRes o.clipRes).1
                    ∨ x ∈ outputFailLog
                        (output_text done mode o.typeRes o.clipRes).2
                    ∨ x = Act.removeArtifact := by
                  simpa [hempty, hpp, hproc] using hx
                rcases hor with h | h | h | h | h | h
                · subst h; rfl
                · subst h; rfl
                · exact hmemActs x h
                · exact output_text_inner _ _ _ _ x h
                · exact outputFailLog_inner _ x h
                · subst h; rfl
              | error err =>
                have hor : x = Act.stopRecorder ∨ x = Act.transcribe
                    ∨ x ∈ acts ∨ x = Act.logCleanupFail
                    ∨ x ∈ (output_text (trim raw) mode o.typeRes o.clipRes).1
                    ∨ x ∈ outputFailLog
                        (output_text (trim raw) mode o.typeRes o.clipRes).2
                    ∨ x = Act.removeArtifact := by
                  simpa [hempty, hpp, hproc] using hx
                rcases hor with h | h | h | h | h | h | h
                · subst h; rfl
                · subst h; rfl
                · exact hmemActs x h
                · subst h; rfl
                · exact output_text_inner _ _ _ _ x h
                · exact outputFailLog_inner _ x h
                · subst h; rfl

/-- A sealed action block: pipeline spans are balanced, and every capture
start inside it occurs with all earlier pipeline spans completed. -/
def Sealed (t : List Act) : Prop :=
  t.countP Act.isPipelineBegin = t.countP Act.isPipelineEnd
  ∧ ∀ a b, t = a ++ Act.startCapture :: b →
      a.countP Act.isPipelineBegin = a.countP Act.isPipelineEnd

theorem sealed_nil : Sealed ([] : List Act) := by
  refine ⟨rfl, ?_⟩
  intro a b h
  exact absurd h (by simp)

theorem sealed_append (xs ys : List Act) (hx : Sealed xs) (hy : Sealed ys) :
    Sealed (xs ++ ys) := by
  constructor
  · rw [List.countP_append, List.countP_append, hx.1, hy.1]
  · intro a b h
    rcases List.append_eq_append_iff.mp h with ⟨w, ha, hys⟩ | ⟨w, hxs, hsb⟩
    · rw [ha, List.countP_append, List.countP_append, hx.1,
        hy.2 w b hys]
    · cases w with
      | nil =>
        rw [List.append_nil] at hxs
        rw [← hxs, hx.1]
      | cons z w' =>
        have hz : z = Act.startCapture ∧ w' ++ ys = b := by
          have := hsb
          rw [List.cons_append] at this
          exact ⟨(List.cons_eq_cons.mp this).1.symm,
            (List.cons_eq_cons.mp this).2.symm⟩
        rcases hz with ⟨hz1, _⟩
        subst hz1
        exact hx.2 a w' hxs

theorem sealed_of_counts (t : List Act)
    (h1 : t.countP Act.isPipelineBegin = t.countP Act.isPipelineEnd)
    (h0 : t.countP Act.isStartCapture = 0) : Sealed t := by
  refine ⟨h1, ?_⟩
  intro a b ht
  exfalso
  have hmem : Act.startCapture ∈ t := by
    rw [ht]
    simp
  have hpos : 0 < t.countP Act.isStartCapture :=
    List.countP_pos.mpr ⟨Act.startCapture, hmem, rfl⟩
  omega

theorem sealed_start_cons (rest : List Act)
    (h1 : rest.countP Act.isPipelineBegin = 0)
    (h2 : rest.countP Act.isPipelineEnd = 0)
    (h3 : rest.countP Act.isStartCapture = 0) :
    Sealed (Act.startCapture :: rest) := by
  constructor
  · rw [List.countP_cons, List.countP_cons, h1, h2]
    rfl
  · intro a b hsplit
    cases a with
    | nil => rfl
    | cons z a' =>
      rw [List.cons_append] at hsplit
      rcases List.cons_eq_cons.mp hsplit with ⟨hz, hrest⟩
      exfalso
      have hmem : Act.startCapture ∈ rest := by
        rw [hrest]
        simp
      have hpos : 0 < rest.countP Act.isStartCapture :=
        List.countP_pos.mpr ⟨Act.startCapture, hmem, rfl⟩
      omega

theorem handle_transcription_counts (o : SessionOracle) (pp : Bool)
    (mode : OutputMode) :
    (handle_transcription o pp mode).countP Act.isPipelineBegin = 0
    ∧ (handle_transcription o pp mode).countP Act.isPipelineEnd = 0
    ∧ (handle_transcription o pp mode).countP Act.isStartCapture = 0 := by
  refine ⟨List.countP_eq_zero.mpr ?_, List.countP_eq_zero.mpr ?_,
    List.countP_eq_zero.mpr ?_⟩ <;>
    intro x hx <;>
    have hin := (handle_transcription_inner o pp mode x hx) <;>
    have hns := Act.inner_not_special x hin <;>
    simp [hns.1, hns.2.1, hns.2.2]

theorem eventStep_sealed (o : Oracle) (pp : Bool) (mode : OutputMode)
    (st : LoopState) (e : HotkeyEvent) :
    Sealed (eventStep o pp mode st e).2 := by
  cases e with
  | pressed =>
    by_cases hrec : st.isRecording
    · simp [eventStep, hrec]
      exact sealed_nil
    · by_cases hok : o.startOk st.starts
      · simp [eventStep, hrec, hok]
        exact sealed_start_cons [] rfl rfl rfl
      · simp [eventStep, hrec, hok]
        exact sealed_start_cons [Act.logStartFail] rfl rfl rfl
  | released =>
    by_cases hrec : st.isRecording
    · simp only [eventStep, hrec, if_true]
      rcases handle_transcription_counts (o.session st.sessions) pp mode with
        ⟨hb, he, hs⟩
      apply sealed_of_counts
      · rw [List.countP_cons, List.countP_cons, List.countP_cons,
          List.countP_cons, List.countP_append, List.countP_append,
          List.countP_cons, List.countP_cons, hb, he]
        rfl
      · rw [List.countP_cons, List.countP_cons, List.countP_append,
          List.countP_cons, hs]
        rfl
    · simp [eventStep, hrec]
      exact sealed_nil

theorem run_sealed (o : Oracle) (pp : Bool) (mode : OutputMode) :
    ∀ (evs : List HotkeyEvent) (st : LoopState),
      Sealed (run_event_loop o pp mode st evs) := by
  intro evs
  induction evs with
  | nil => intro st; exact sealed_nil
  | cons e evs ih =>
    intro st
    exact sealed_append _ _ (eventStep_sealed o pp mode st e)
      (ih (eventStep o pp mode st e).1)

/-- C1 counterexample: the claim that a fresh `Pressed` can start a new
recording while a previous session's processing pipeline is still in flight
is false — in no run does a capture start occur strictly inside a pipeline
span, because the `Released` select-arm awaits `handle_transcription`
inline before the loop polls the next event. -/
theorem no_recording_start_during_pipeline :
    (∃ (o : Oracle) (pp : Bool) (mode : OutputMode) (evs : List HotkeyEvent)
        (a b : List Act),
        controllerTrace o pp mode evs = a ++ Act.startCapture :: b
        ∧ a.countP Act.isPipelineEnd < a.countP Act.isPipelineBegin) = False := by
  apply eq_false
  rintro ⟨o, pp, mode, evs, a, b, hsplit, hlt⟩
  have hs := run_sealed o pp mode evs ⟨false, 0, 0⟩
  have heq := hs.2 a b hsplit
  omega

/-- C1 (amended): the controller's `Released` arm awaits the whole
processing pipeline (transcription, optional cleanup, output) inline before
the loop polls the next event, so whenever a capture start appears in a run's
trace, every pipeline span begun earlier has already ended — a fresh
`Pressed` starts a new recording only after the previous session's
processing has completed. -/
theorem recording_start_after_pipeline_complete :
    ∀ (o : Oracle) (pp : Bool) (mode : OutputMode) (evs : List HotkeyEvent)
      (a b : List Act),
      controllerTrace o pp mode evs = a ++ Act.startCapture :: b →
      a.countP Act.isPipelineBegin = a.countP Act.isPipelineEnd := by
  intro o pp mode evs a b hsplit
  exact (run_sealed o pp mode evs ⟨false, 0, 0⟩).2 a b hsplit

/-- A concrete run oracle: every collaborator call succeeds and the engine
transcribes "hi". -/
def demoOracle : Oracle :=
  ⟨fun _ => true,
    fun _ => ⟨Except.ok (), Except.ok (Except.ok "hi"), fun _ => Except.ok "hi",
      Except.ok (), Except.ok ()⟩⟩

/-- Witness for C1 (amended) on the run Pressed–Released–Pressed: the prefix
before the second capture start has its one pipeline span completed. -/
theorem recording_start_after_pipeline_complete_witness :
    ([Act.startCapture, Act.drainSleep, Act.pipelineBegin, Act.stopRecorder,
      Act.transcribe, Act.typeText "hi", Act.removeArtifact,
      Act.pipelineEnd] : List Act).countP Act.isPipelineBegin
      = ([Act.startCapture, Act.drainSleep, Act.pipelineBegin,
          Act.stopRecorder, Act.transcribe, Act.typeText "hi",
          Act.removeArtifact, Act.pipelineEnd] : List Act).countP
          Act.isPipelineEnd :=
  recording_start_after_pipeline_complete demoOracle false OutputMode.typing
    [HotkeyEvent.pressed, HotkeyEvent.released, HotkeyEvent.pressed]
    [Act.startCapture, Act.drainSleep, Act.pipelineBegin, Act.stopRecorder,
      Act.transcribe, Act.typeText "hi", Act.removeArtifact, Act.pipelineEnd]
    [] (by decide)

end ParakeetWriter
